import Mathlib

/-!
Verification development for the spaced-repetition scheduling engine of the
chess-tracker repository (`src/compute_srs.py`).

The Python module is shallowly embedded below:

* `_parse_cadence`        → `parseCadence`
* `_local_date_of_iso`    → `localDateOfIso`
* `_next_interval_days`   → `nextIntervalDays`
* `_seed_offset_days`     → `seedOffsetDays`
* `_calc_update`          → `calcUpdate`
* the per-puzzle body of `run` → `decideStep` / `runStep`, and the loop of
  `run` (with its single enclosing transaction) → `runList` / `run`.

Calendar dates are modelled with an explicit Gregorian `Date` type;
SQLite's `date(base, '+n day')` used by `run` is calendar-day addition,
modelled by `addDays`.  Module-level configuration constants
(`TRACK_WINS`, `LOSS_CADENCE`, ...) become fields of a `Config` record
passed explicitly.
-/

namespace ChessTracker

/-- A Gregorian calendar date, the value denoted by a `YYYY-MM-DD` local-date
string in the Python module. -/
structure Date where
  year : Nat
  month : Nat
  day : Nat
deriving DecidableEq, Repr

/-- Gregorian leap-year rule. -/
def isLeapYear (y : Nat) : Bool :=
  y % 4 == 0 && (y % 100 != 0 || y % 400 == 0)

/-- Number of days in a month of a given year. -/
def daysInMonth (y m : Nat) : Nat :=
  if m = 2 then (if isLeapYear y then 29 else 28)
  else if m = 4 ∨ m = 6 ∨ m = 9 ∨ m = 11 then 30
  else 31

/-- The calendar day after `d`. -/
def nextDay (d : Date) : Date :=
  if d.day < daysInMonth d.year d.month then ⟨d.year, d.month, d.day + 1⟩
  else if d.month < 12 then ⟨d.year, d.month + 1, 1⟩
  else ⟨d.year + 1, 1, 1⟩

/-- Calendar-day addition: the semantics of SQLite's `date(base, '+n day')`
expression evaluated by `run` (`SELECT date(:base, :plus)`). -/
def addDays (d : Date) : Nat → Date
  | 0 => d
  | n + 1 => addDays (nextDay d) n

/-- The five-plus-one configuration values read once at module load
(`TRACK_WINS`, `LOSS_CADENCE`, `WIN_CADENCE`, `RESET_ON_FAIL`, `SEED_MODE`,
`STAGGER_BUCKETS`).  `stagger_buckets` is an `Int` because `_env_int` can
produce any integer, including non-positive ones. -/
structure Config where
  track_wins : Bool
  loss_cadence : List Nat
  win_cadence : List Nat
  reset_on_fail : Bool
  seed_mode : String
  stagger_buckets : Int
deriving Repr

/-- Embedding of `_parse_cadence`: keep the comma-separated parts that are
non-empty digit strings; if none survive, fall back. -/
def parseCadence (s : String) (fallback : List Nat) : List Nat :=
  let out := (s.splitOn ",").filterMap (fun part =>
    let p := part.trim
    if !p.isEmpty && p.all Char.isDigit then p.toNat? else none)
  if out.isEmpty then fallback else out

/-- The default configuration of the module: every `SRS_*` environment
variable unset. -/
def defaultConfig : Config where
  track_wins := false
  loss_cadence := [1, 2, 4, 7, 14, 30, 60, 90]
  win_cadence := [2, 4, 7, 14, 30, 60, 90]
  reset_on_fail := true
  seed_mode := "tomorrow"
  stagger_buckets := 7

/-- Embedding of `_next_interval_days`.  The Python indexes
`cad[min(max(streak,1)-1, len(cad)-1)]`; for the non-empty cadence lists the
module can actually configure (see `parseCadence_ne_nil`) the index is in
range, so `List.getD` with default `0` agrees with the Python indexing. -/
def nextIntervalDays (cfg : Config) (streak : Nat) (for_win : Bool) : Nat :=
  (if for_win && cfg.track_wins then cfg.win_cadence else cfg.loss_cadence).getD
    (min (max streak 1 - 1)
      ((if for_win && cfg.track_wins then cfg.win_cadence else cfg.loss_cadence).length - 1)) 0

/-- The rolling hash over the puzzle identifier's characters used by
`_seed_offset_days`: `base = (base * 131 + ord(ch)) & 0x7fffffff`
(`& 0x7fffffff` is reduction mod `2 ^ 31` on non-negative values;
`ord` is the Unicode code point, `Char.toNat`). -/
def hashPid (pid : String) : Nat :=
  pid.toList.foldl (fun base ch => (base * 131 + ch.toNat) % 2 ^ 31) 0

/-- Python's `str.lower()` restricted to its ASCII action: the result strings
compared against `"win"` and stored in `last_result` only involve ASCII. -/
def toLowerAscii (s : String) : String :=
  String.mk (s.toList.map Char.toLower)

/-- Embedding of `_seed_offset_days`:
`(hash % max(STAGGER_BUCKETS, 1)) or 1` in stagger mode, else `1`. -/
def seedOffsetDays (cfg : Config) (pid : String) : Nat :=
  if cfg.seed_mode = "stagger" then
    if hashPid pid % (max cfg.stagger_buckets 1).toNat = 0 then 1
    else hashPid pid % (max cfg.stagger_buckets 1).toNat
  else 1

/-- A row of the `srs` table (one `ScheduleEntry`). -/
structure Entry where
  success_streak : Nat
  interval_days : Nat
  last_result : String
  last_reviewed : Date
  due_date : Date
deriving DecidableEq, Repr

/-- Embedding of `_calc_update`.  Returns `none` where the Python returns
`None`, otherwise `(streak, interval_days, base_date, is_win)`; the Python
tuple's `plus_expr` component is the string `"+{interval} day"` and is
determined by `interval`, so it is not carried separately. -/
def calcUpdate (cfg : Config) (existing : Option Entry) (last_result : String)
    (lastAttemptLocalDate : Date) (pid : String) : Option (Nat × Nat × Date × Bool) :=
  let is_win := last_result == "win"
  match existing with
  | some e =>
    if is_win then
      if cfg.track_wins then
        let streak := e.success_streak + 1
        some (streak, nextIntervalDays cfg streak true, lastAttemptLocalDate, true)
      else
        none
    else
      let streak := if cfg.reset_on_fail then 0 else e.success_streak - 1
      let interval := nextIntervalDays cfg (if streak = 0 then 1 else streak) false
      some (streak, interval, lastAttemptLocalDate, false)
  | none =>
    if is_win && !cfg.track_wins then none
    else
      let streak := if is_win then 1 else 0
      let interval :=
        if !is_win then seedOffsetDays cfg pid
        else nextIntervalDays cfg (if streak = 0 then 1 else streak) true
      some (streak, interval, lastAttemptLocalDate, is_win)

/-- Python's `x or "loss"` on the nullable `last_result` column
(line `last_result = (r["last_result"] or "loss").lower()`): both SQL `NULL`
and the empty string are falsy and default to `"loss"`. -/
def orLoss : Option String → String
  | none => "loss"
  | some s => if s = "" then "loss" else s

/-- The three outcomes of the per-puzzle decision: upsert a schedule row,
delete the existing row, or do nothing. -/
inductive Action where
  | upsert (e : Entry)
  | delete
  | noop
deriving DecidableEq, Repr

/-- The per-puzzle decision logic of `run` (lines 138–156 of
`compute_srs.py`): normalize the latest result, short-circuit the
untracked-win case to DELETE/NO-OP, otherwise apply `_calc_update` and build
the row that `SQL_UPSERT_SRS` would write, with
`due_date = date(base, '+interval day')`. -/
def decideStep (cfg : Config) (existing : Option Entry) (rawResult : Option String)
    (lastAttemptLocalDate : Date) (pid : String) : Action :=
  let last_result := toLowerAscii (orLoss rawResult)
  if last_result == "win" && !cfg.track_wins then
    match existing with
    | some _ => Action.delete
    | none => Action.noop
  else
    match calcUpdate cfg existing last_result lastAttemptLocalDate pid with
    | none => Action.noop
    | some (streak, interval, base, _) =>
      Action.upsert
        { success_streak := streak
          interval_days := interval
          last_result := last_result
          last_reviewed := base
          due_date := addDays base interval }

/-- Embedding of `_local_date_of_iso`, which runs
`datetime.fromisoformat(ts.replace("Z", "+00:00")).astimezone().strftime("%Y-%m-%d")`
and raises `ValueError` (modelled as `none`) on a malformed timestamp.
The model checks the mandatory `YYYY-MM-DD` calendar-date prefix (month and
day ranges included, as `fromisoformat` does) followed by nothing or by a
`T`/space time part, and returns that calendar date.  The process-local
timezone used by `astimezone` is fixed to UTC and the time-of-day part is
not re-applied to the date; no claim below depends on which in-range date
comes out, only on parse success versus failure. -/
def localDateOfIso (s : String) : Option Date :=
  match s.toList with
  | y1 :: y2 :: y3 :: y4 :: h1 :: m1 :: m2 :: h2 :: d1 :: d2 :: rest =>
    if y1.isDigit && y2.isDigit && y3.isDigit && y4.isDigit && h1 == '-' &&
       m1.isDigit && m2.isDigit && h2 == '-' && d1.isDigit && d2.isDigit &&
       (rest.isEmpty || rest.head? == some 'T' || rest.head? == some ' ') then
      let y := ((y1.toNat - 48) * 10 + (y2.toNat - 48)) * 100 +
               ((y3.toNat - 48) * 10 + (y4.toNat - 48))
      let m := (m1.toNat - 48) * 10 + (m2.toNat - 48)
      let d := (d1.toNat - 48) * 10 + (d2.toNat - 48)
      if 1 ≤ m && m ≤ 12 && 1 ≤ d && d ≤ daysInMonth y m then some ⟨y, m, d⟩
      else none
    else none
  | _ => none

/-- A row of the `SQL_LAST_ATTEMPT` query: puzzle id, latest attempt
timestamp, latest result (nullable). -/
structure Row where
  puzzle_id : String
  last_attempt : String
  last_result : Option String
deriving Repr

/-- The `srs` table keyed by puzzle id (user id is the constant 1). -/
abbrev Store := String → Option Entry

/-- Point update of the store: the effect of one `SQL_UPSERT_SRS`
(`v = some e`) or `SQL_DELETE_SRS` (`v = none`). -/
def Store.set (σ : Store) (pid : String) (v : Option Entry) : Store :=
  fun q => if q = pid then v else σ q

/-- State threaded through the loop of `run`: the store plus the
`updated` and `deleted` counters. -/
structure RunState where
  store : Store
  updated : Nat
  deleted : Nat

/-- The incremental-mode filter of `run`: a row is processed unless
`changed_pids is not None and pid not in changed_pids`. -/
def rowProcessed (changed : Option (List String)) (r : Row) : Bool :=
  match changed with
  | some pids => pids.contains r.puzzle_id
  | none => true

/-- One iteration of the loop of `run`.  A malformed timestamp makes
`_local_date_of_iso` raise; nothing in `run` catches the exception, so the
iteration is an `Except` and the error aborts the whole fold (and, because
the loop runs inside a single `with eng.begin()` transaction, discards all
accumulated updates). -/
def runStep (cfg : Config) (changed : Option (List String)) (st : RunState) (r : Row) :
    Except Unit RunState :=
  if rowProcessed changed r then
    match localDateOfIso r.last_attempt with
    | none => Except.error ()
    | some d =>
      match decideStep cfg (st.store r.puzzle_id) r.last_result d r.puzzle_id with
      | Action.delete => Except.ok ⟨st.store.set r.puzzle_id none, st.updated, st.deleted + 1⟩
      | Action.noop => Except.ok st
      | Action.upsert e =>
          Except.ok ⟨st.store.set r.puzzle_id (some e), st.updated + 1, st.deleted⟩
  else
    Except.ok st

/-- The loop of `run` over the rows of `SQL_LAST_ATTEMPT`, stopping at the
first uncaught exception. -/
def runList (cfg : Config) (changed : Option (List String)) :
    List Row → RunState → Except Unit RunState
  | [], st => Except.ok st
  | r :: rs, st =>
    match runStep cfg changed st r with
    | Except.error e => Except.error e
    | Except.ok st2 => runList cfg changed rs st2

/-- Embedding of `run`: fold the per-puzzle step over the latest-attempt
rows starting from the current store and zeroed counters. -/
def run (cfg : Config) (changed : Option (List String)) (rows : List Row) (σ : Store) :
    Except Unit RunState :=
  runList cfg changed rows ⟨σ, 0, 0⟩

/-- `_parse_cadence` never yields an empty cadence when its fallback is
non-empty (`out or fallback`), and both module fallbacks are non-empty; this
justifies the non-emptiness hypotheses on cadence tables below. -/
theorem parseCadence_ne_nil (s : String) (fallback : List Nat)
    (h : fallback ≠ []) : parseCadence s fallback ≠ [] := by
  have key : ∀ out : List Nat, (if out.isEmpty then fallback else out) ≠ [] := by
    intro out
    cases out with
    | nil => simpa using h
    | cons a l => simp
  exact key _

/-! ## Concrete configurations used as witnesses -/

/-- The default configuration with stagger seeding switched on. -/
def staggerConfig : Config := { defaultConfig with seed_mode := "stagger" }

/-- A configuration whose loss cadence starts above one day, exposing the
difference between the seed interval and the loss-cadence interval. -/
def threeCadenceConfig : Config := { defaultConfig with loss_cadence := [3] }

/-! ## Claims -/

/-- C9: a puzzle whose latest attempt has a NULL (missing) result field is
treated exactly as if the latest result were `"loss"`: the decision is the
same as for an explicit `"loss"`, and it is an upsert (never a skip or an
error). -/
theorem c9_null_result_behaves_as_loss (cfg : Config) (existing : Option Entry)
    (d : Date) (pid : String) :
    decideStep cfg existing none d pid = decideStep cfg existing (some "loss") d pid ∧
    ∃ e, decideStep cfg existing none d pid = Action.upsert e := by
  refine ⟨rfl, ?_⟩
  cases existing with
  | none => exact ⟨_, rfl⟩
  | some e => exact ⟨_, rfl⟩

/-- C3: when the latest result is a win and win-tracking is disabled, the
decision is DELETE whenever an entry exists (whatever its streak and
interval) and NO-OP when none does. -/
theorem c3_untracked_win_deletes (cfg : Config) (existing : Option Entry)
    (raw : Option String) (d : Date) (pid : String)
    (htrack : cfg.track_wins = false)
    (hwin : toLowerAscii (orLoss raw) = "win") :
    decideStep cfg existing raw d pid =
      (match existing with
       | some _ => Action.delete
       | none => Action.noop) := by
  cases existing <;> simp [decideStep, hwin, htrack]

/-- Witness for C3 at a concrete entry and at absence of an entry. -/
theorem c3_untracked_win_deletes_witness :
    decideStep defaultConfig (some ⟨3, 7, "loss", ⟨2024, 1, 1⟩, ⟨2024, 1, 8⟩⟩)
        (some "win") ⟨2024, 2, 1⟩ "pz" = Action.delete ∧
    decideStep defaultConfig none (some "WIN") ⟨2024, 2, 1⟩ "pz" = Action.noop :=
  ⟨c3_untracked_win_deletes defaultConfig (some ⟨3, 7, "loss", ⟨2024, 1, 1⟩, ⟨2024, 1, 8⟩⟩)
      (some "win") ⟨2024, 2, 1⟩ "pz" rfl rfl,
   c3_untracked_win_deletes defaultConfig none (some "WIN") ⟨2024, 2, 1⟩ "pz" rfl rfl⟩

/-- C4: with `seed_mode = "tomorrow"`, a first loss (no existing entry)
seeds streak `0`, interval `1`, and a due date exactly one calendar day
after the attempt's local date, whatever the loss cadence contains. -/
theorem c4_first_loss_seeds_tomorrow (cfg : Config) (raw : Option String)
    (d : Date) (pid : String)
    (hseed : cfg.seed_mode = "tomorrow")
    (hloss : toLowerAscii (orLoss raw) = "loss") :
    decideStep cfg none raw d pid = Action.upsert ⟨0, 1, "loss", d, addDays d 1⟩ := by
  simp [decideStep, calcUpdate, seedOffsetDays, hloss, hseed]

/-- Witness for C4 with a loss cadence that never contains `1`. -/
theorem c4_first_loss_seeds_tomorrow_witness :
    decideStep threeCadenceConfig none (some "loss") ⟨2024, 12, 31⟩ "pz" =
      Action.upsert ⟨0, 1, "loss", ⟨2024, 12, 31⟩, ⟨2025, 1, 1⟩⟩ :=
  c4_first_loss_seeds_tomorrow threeCadenceConfig (some "loss") ⟨2024, 12, 31⟩ "pz" rfl rfl

/-- C5: updating an existing entry on a loss yields streak `0` under
`reset_on_fail` and `streak - 1` (floored at zero) otherwise, interval
`loss_cadence[min(max(new_streak, 1) - 1, len - 1)]`, and reviewed/due dates
recomputed from the attempt's local date. -/
theorem c5_existing_loss_update (cfg : Config) (e : Entry) (raw : Option String)
    (d : Date) (pid : String)
    (hcad : cfg.loss_cadence ≠ [])
    (hloss : toLowerAscii (orLoss raw) ≠ "win") :
    decideStep cfg (some e) raw d pid =
      Action.upsert
        ⟨(if cfg.reset_on_fail then 0 else e.success_streak - 1),
         cfg.loss_cadence.getD
           (min (max (if cfg.reset_on_fail then 0 else e.success_streak - 1) 1 - 1)
                (cfg.loss_cadence.length - 1)) 0,
         toLowerAscii (orLoss raw), d,
         addDays d
           (cfg.loss_cadence.getD
             (min (max (if cfg.reset_on_fail then 0 else e.success_streak - 1) 1 - 1)
                  (cfg.loss_cadence.length - 1)) 0)⟩ := by
  have hb : (toLowerAscii (orLoss raw) == "win") = false := by
    simp [hloss]
  by_cases hr : cfg.reset_on_fail <;>
    by_cases hz : e.success_streak - 1 = 0 <;>
      simp [decideStep, calcUpdate, nextIntervalDays, hb, hr, hz]

/-- Witness for C5: the spec's own example, `reset_on_fail = true`,
streak `5`, a loss resets the streak to `0` and uses `loss_cadence[0]`. -/
theorem c5_existing_loss_update_witness :
    decideStep defaultConfig (some ⟨5, 30, "win", ⟨2024, 1, 1⟩, ⟨2024, 1, 31⟩⟩)
        (some "loss") ⟨2024, 2, 1⟩ "pz" =
      Action.upsert ⟨0, 1, "loss", ⟨2024, 2, 1⟩, ⟨2024, 2, 2⟩⟩ :=
  c5_existing_loss_update defaultConfig ⟨5, 30, "win", ⟨2024, 1, 1⟩, ⟨2024, 1, 31⟩⟩
    (some "loss") ⟨2024, 2, 1⟩ "pz" (by decide) (by decide)

/-- C6: the cadence lookup saturates: for any streak strictly above the
(non-empty) cadence table's length, the interval equals the interval at a
streak of exactly the table's length, with no out-of-range access. -/
theorem c6_cadence_saturation (cfg : Config) (s : Nat) (for_win : Bool)
    (hne : (if for_win && cfg.track_wins then cfg.win_cadence else cfg.loss_cadence) ≠ [])
    (hs : (if for_win && cfg.track_wins then cfg.win_cadence else cfg.loss_cadence).length < s) :
    nextIntervalDays cfg s for_win =
      nextIntervalDays cfg
        (if for_win && cfg.track_wins then cfg.win_cadence else cfg.loss_cadence).length
        for_win := by
  cases hq : (if for_win && cfg.track_wins then cfg.win_cadence else cfg.loss_cadence) with
  | nil => exact absurd hq hne
  | cons a l =>
    rw [hq] at hs
    simp only [nextIntervalDays, hq]
    have hidx : min (max s 1 - 1) ((a :: l).length - 1) =
        min (max (a :: l).length 1 - 1) ((a :: l).length - 1) := by
      simp only [List.length_cons] at hs ⊢
      omega
    rw [hidx]

/-- Witness for C6: streak `100` against the default 8-entry loss cadence. -/
theorem c6_cadence_saturation_witness :
    nextIntervalDays defaultConfig 100 false = nextIntervalDays defaultConfig 8 false :=
  c6_cadence_saturation defaultConfig 100 false (by decide) (by decide)

/-- C10: in stagger mode the seed interval is the identifier hash modulo the
bucket count with `0` remapped to `1`: for at least two buckets it lies in
`1 .. b - 1` and never reaches `b`; for at most one bucket it is always `1`. -/
theorem c10_stagger_seed_bounds (cfg : Config) (pid : String)
    (hmode : cfg.seed_mode = "stagger") :
    (2 ≤ cfg.stagger_buckets →
      1 ≤ seedOffsetDays cfg pid ∧
      (seedOffsetDays cfg pid : Int) < cfg.stagger_buckets) ∧
    (cfg.stagger_buckets ≤ 1 → seedOffsetDays cfg pid = 1) := by
  have hpos : 0 < (max cfg.stagger_buckets 1).toNat := by omega
  have hmlt : hashPid pid % (max cfg.stagger_buckets 1).toNat <
      (max cfg.stagger_buckets 1).toNat := Nat.mod_lt _ hpos
  unfold seedOffsetDays
  rw [if_pos hmode]
  constructor
  · intro hb
    by_cases hz : hashPid pid % (max cfg.stagger_buckets 1).toNat = 0
    · rw [if_pos hz]
      exact ⟨le_refl 1, by omega⟩
    · rw [if_neg hz]
      exact ⟨by omega, by omega⟩
  · intro hb
    have h1 : (max cfg.stagger_buckets 1).toNat = 1 := by omega
    simp [h1, Nat.mod_one]

/-- Witness for C10 at seven buckets and a concrete identifier. -/
theorem c10_stagger_seed_bounds_witness :
    1 ≤ seedOffsetDays staggerConfig "abc" ∧
    (seedOffsetDays staggerConfig "abc" : Int) < staggerConfig.stagger_buckets :=
  (c10_stagger_seed_bounds staggerConfig "abc" rfl).1 (by decide)

/-- The default configuration with streak decrement instead of reset on a
loss. -/
def decrementConfig : Config := { defaultConfig with reset_on_fail := false }

/-- C2 fails as stated, in two ways.  With `reset_on_fail = false`, a loss
against an existing entry of streak `5` upserts streak `4` / interval `7`,
and re-applying the decision function with that entry and the same attempt
upserts streak `3` / interval `4` — neither a NO-OP nor an identical entry.
With a loss cadence of `[3]`, a first loss seeds interval `1` (the tomorrow
seed) but the second application moves to the cadence interval `3`. -/
theorem c2_counterexample_second_application_drifts :
    (decideStep decrementConfig (some ⟨5, 14, "loss", ⟨2024, 1, 1⟩, ⟨2024, 1, 15⟩⟩)
        (some "loss") ⟨2024, 1, 20⟩ "pz" =
      Action.upsert ⟨4, 7, "loss", ⟨2024, 1, 20⟩, ⟨2024, 1, 27⟩⟩ ∧
    ¬(decideStep decrementConfig (some ⟨4, 7, "loss", ⟨2024, 1, 20⟩, ⟨2024, 1, 27⟩⟩)
        (some "loss") ⟨2024, 1, 20⟩ "pz" = Action.noop ∨
      decideStep decrementConfig (some ⟨4, 7, "loss", ⟨2024, 1, 20⟩, ⟨2024, 1, 27⟩⟩)
        (some "loss") ⟨2024, 1, 20⟩ "pz" =
        Action.upsert ⟨4, 7, "loss", ⟨2024, 1, 20⟩, ⟨2024, 1, 27⟩⟩)) ∧
    (decideStep threeCadenceConfig none (some "loss") ⟨2024, 1, 1⟩ "pz" =
      Action.upsert ⟨0, 1, "loss", ⟨2024, 1, 1⟩, ⟨2024, 1, 2⟩⟩ ∧
    ¬(decideStep threeCadenceConfig (some ⟨0, 1, "loss", ⟨2024, 1, 1⟩, ⟨2024, 1, 2⟩⟩)
        (some "loss") ⟨2024, 1, 1⟩ "pz" = Action.noop ∨
      decideStep threeCadenceConfig (some ⟨0, 1, "loss", ⟨2024, 1, 1⟩, ⟨2024, 1, 2⟩⟩)
        (some "loss") ⟨2024, 1, 1⟩ "pz" =
        Action.upsert ⟨0, 1, "loss", ⟨2024, 1, 1⟩, ⟨2024, 1, 2⟩⟩)) := by
  decide

/-- C2 amended: the decision function is idempotent on losses against an
existing entry when `reset_on_fail` is set — re-applying it with the
upserted entry and the same attempt reproduces that entry exactly.  (Fresh
seeds and tracked wins drift, as the counterexample shows.) -/
theorem c2_amended_reset_loss_idempotent (cfg : Config) (e : Entry) (raw : Option String)
    (d : Date) (pid : String)
    (hreset : cfg.reset_on_fail = true)
    (hloss : toLowerAscii (orLoss raw) ≠ "win") :
    ∃ E, decideStep cfg (some e) raw d pid = Action.upsert E ∧
         decideStep cfg (some E) raw d pid = Action.upsert E := by
  have hb : (toLowerAscii (orLoss raw) == "win") = false := by
    simp [hloss]
  refine ⟨⟨0, nextIntervalDays cfg 1 false, toLowerAscii (orLoss raw), d,
           addDays d (nextIntervalDays cfg 1 false)⟩, ?_, ?_⟩ <;>
    simp [decideStep, calcUpdate, hb, hreset]

/-- Witness for the amended C2 at the default configuration. -/
theorem c2_amended_reset_loss_idempotent_witness :
    ∃ E, decideStep defaultConfig (some ⟨5, 30, "loss", ⟨2024, 1, 1⟩, ⟨2024, 1, 31⟩⟩)
           (some "loss") ⟨2024, 2, 1⟩ "pz" = Action.upsert E ∧
         decideStep defaultConfig (some E) (some "loss") ⟨2024, 2, 1⟩ "pz" = Action.upsert E :=
  c2_amended_reset_loss_idempotent defaultConfig ⟨5, 30, "loss", ⟨2024, 1, 1⟩, ⟨2024, 1, 31⟩⟩
    (some "loss") ⟨2024, 2, 1⟩ "pz" rfl (by decide)

/-- C1 fails as stated: with a malformed timestamp on the first puzzle, the
run aborts with the uncaught `ValueError` and the second (well-formed)
puzzle is never processed — although that second puzzle alone would have
been updated; no skipped-puzzle count exists anywhere in the result. -/
theorem c1_counterexample_run_aborts :
    run defaultConfig none
      [⟨"pzA", "not-a-timestamp", some "loss"⟩, ⟨"pzB", "2024-01-01T00:00:00Z", some "loss"⟩]
      (fun _ => none) = Except.error () ∧
    run defaultConfig none [⟨"pzB", "2024-01-01T00:00:00Z", some "loss"⟩] (fun _ => none) =
      Except.ok ⟨Store.set (fun _ => none) "pzB"
        (some ⟨0, 1, "loss", ⟨2024, 1, 1⟩, ⟨2024, 1, 2⟩⟩), 1, 0⟩ :=
  ⟨rfl, rfl⟩

/-- Propagation of the uncaught `ValueError`: a processed row whose
timestamp fails to parse makes the whole loop error out, from any starting
state. -/
theorem runList_error_of_malformed (cfg : Config) (changed : Option (List String)) :
    ∀ (rows : List Row) (st : RunState),
      (∃ r ∈ rows, rowProcessed changed r = true ∧ localDateOfIso r.last_attempt = none) →
      runList cfg changed rows st = Except.error () := by
  intro rows
  induction rows with
  | nil =>
    intro st h
    rcases h with ⟨r, hr, _⟩
    cases hr
  | cons a rs ih =>
    intro st h
    rcases h with ⟨r, hr, hproc, hbad⟩
    rcases List.mem_cons.mp hr with rfl | hr2
    · simp [runList, runStep, hproc, hbad]
    · unfold runList
      cases hstep : runStep cfg changed st a with
      | error e => rfl
      | ok st2 => exact ih st2 ⟨r, hr2, hproc, hbad⟩

/-- C1 amended: a malformed timestamp on any processed puzzle's latest
attempt aborts the entire recomputation run with an error (the enclosing
transaction discards all updates); no puzzles are skipped-and-counted and
later puzzles are not processed. -/
theorem c1_amended_malformed_timestamp_aborts (cfg : Config)
    (changed : Option (List String)) (rows : List Row) (σ : Store)
    (h : ∃ r ∈ rows, rowProcessed changed r = true ∧ localDateOfIso r.last_attempt = none) :
    run cfg changed rows σ = Except.error () :=
  runList_error_of_malformed cfg changed rows ⟨σ, 0, 0⟩ h

/-- Witness for the amended C1 at a single malformed row. -/
theorem c1_amended_malformed_timestamp_aborts_witness :
    run defaultConfig none [⟨"pzA", "bad-timestamp", some "loss"⟩] (fun _ => none) =
      Except.error () :=
  c1_amended_malformed_timestamp_aborts defaultConfig none
    [⟨"pzA", "bad-timestamp", some "loss"⟩] (fun _ => none)
    ⟨⟨"pzA", "bad-timestamp", some "loss"⟩, by simp, rfl, rfl⟩

/-! ## C8: the schedule-store invariant -/

/-- The `ScheduleEntry` invariant of the spec: a positive interval, and a
due date that is the reviewed date advanced by exactly that many calendar
days. -/
def EntryInv (e : Entry) : Prop :=
  1 ≤ e.interval_days ∧ e.due_date = addDays e.last_reviewed e.interval_days

/-- Every row present in the store satisfies the entry invariant. -/
def StoreInv (σ : Store) : Prop := ∀ pid e, σ pid = some e → EntryInv e

/-- Both cadence tables are non-empty (which `_parse_cadence` guarantees,
see `parseCadence_ne_nil`) and hold only positive day counts. -/
def CadencesPos (cfg : Config) : Prop :=
  cfg.loss_cadence ≠ [] ∧ (∀ x ∈ cfg.loss_cadence, 1 ≤ x) ∧
  cfg.win_cadence ≠ [] ∧ (∀ x ∈ cfg.win_cadence, 1 ≤ x)

/-- A cadence lookup lands inside the table and hence returns one of its
(positive) members. -/
theorem getD_pos_of_mem_pos (cad : List Nat) (idx : Nat)
    (hp : ∀ x ∈ cad, 1 ≤ x) (hidx : idx < cad.length) : 1 ≤ cad.getD idx 0 := by
  rw [List.getD_eq_getElem cad 0 hidx]
  exact hp _ (List.getElem_mem hidx)

/-- `_next_interval_days` always returns a positive interval for positive,
non-empty cadence tables. -/
theorem nextIntervalDays_pos (cfg : Config) (s : Nat) (b : Bool)
    (hc : CadencesPos cfg) : 1 ≤ nextIntervalDays cfg s b := by
  obtain ⟨hl, hlp, hw, hwp⟩ := hc
  unfold nextIntervalDays
  by_cases hb : (b && cfg.track_wins) = true
  · rw [if_pos hb]
    refine getD_pos_of_mem_pos _ _ hwp ?_
    have h1 : 1 ≤ cfg.win_cadence.length := List.length_pos.mpr hw
    omega
  · rw [if_neg hb]
    refine getD_pos_of_mem_pos _ _ hlp ?_
    have h1 : 1 ≤ cfg.loss_cadence.length := List.length_pos.mpr hl
    omega

/-- `_seed_offset_days` always returns a positive interval, whatever the
seed mode and bucket count. -/
theorem seedOffsetDays_pos (cfg : Config) (pid : String) :
    1 ≤ seedOffsetDays cfg pid := by
  unfold seedOffsetDays
  split
  · split <;> omega
  · omega

/-- Every tuple `_calc_update` returns has a positive interval and carries
the attempt's local date as its base date. -/
theorem calcUpdate_pos (cfg : Config) (existing : Option Entry) (lr : String)
    (d : Date) (pid : String) (s i : Nat) (b : Date) (w : Bool)
    (hc : CadencesPos cfg)
    (h : calcUpdate cfg existing lr d pid = some (s, i, b, w)) :
    1 ≤ i ∧ b = d := by
  cases existing with
  | some e =>
    by_cases hwin : (lr == "win") = true
    · by_cases ht : cfg.track_wins = true
      · simp [calcUpdate, hwin, ht, Prod.mk.injEq] at h
        obtain ⟨rfl, rfl, rfl, rfl⟩ := h
        exact ⟨nextIntervalDays_pos cfg _ true hc, rfl⟩
      · simp [calcUpdate, hwin, ht] at h
    · simp [calcUpdate, hwin, Prod.mk.injEq] at h
      obtain ⟨rfl, rfl, rfl, rfl⟩ := h
      exact ⟨nextIntervalDays_pos cfg _ false hc, rfl⟩
  | none =>
    by_cases hwin : (lr == "win") = true
    · by_cases ht : cfg.track_wins = true
      · simp [calcUpdate, hwin, ht, Prod.mk.injEq] at h
        obtain ⟨rfl, rfl, rfl, rfl⟩ := h
        exact ⟨nextIntervalDays_pos cfg _ true hc, rfl⟩
      · simp [calcUpdate, hwin, ht] at h
    · simp [calcUpdate, hwin, Prod.mk.injEq] at h
      obtain ⟨rfl, rfl, rfl, rfl⟩ := h
      exact ⟨seedOffsetDays_pos cfg pid, rfl⟩

/-- Every entry `decideStep` upserts satisfies the entry invariant. -/
theorem decideStep_upsert_inv (cfg : Config) (existing : Option Entry)
    (raw : Option String) (d : Date) (pid : String) (e : Entry)
    (hc : CadencesPos cfg)
    (h : decideStep cfg existing raw d pid = Action.upsert e) : EntryInv e := by
  by_cases hcond : (toLowerAscii (orLoss raw) == "win" && !cfg.track_wins) = true
  · simp [decideStep, hcond] at h
    cases existing <;> simp at h
  · simp [decideStep, hcond] at h
    cases hcalc : calcUpdate cfg existing (toLowerAscii (orLoss raw)) d pid with
    | none => rw [hcalc] at h; simp at h
    | some t =>
      obtain ⟨s, i, b, w⟩ := t
      rw [hcalc] at h
      simp at h
      subst h
      obtain ⟨hi, hb⟩ := calcUpdate_pos cfg existing _ d pid s i b w hc hcalc
      exact ⟨hi, rfl⟩

/-- A single loop iteration preserves the store invariant. -/
theorem runStep_preserves_inv (cfg : Config) (changed : Option (List String))
    (st : RunState) (r : Row) (st1 : RunState)
    (hc : CadencesPos cfg) (hinv : StoreInv st.store)
    (h : runStep cfg changed st r = Except.ok st1) : StoreInv st1.store := by
  unfold runStep at h
  split at h
  · split at h
    · cases h
    · next d hdate =>
      split at h
      · next hdec =>
        injection h with h
        subst h
        intro pid e hpe
        by_cases hq : pid = r.puzzle_id
        · simp [Store.set, hq] at hpe
        · exact hinv pid e (by simpa [Store.set, hq] using hpe)
      · next hdec =>
        injection h with h
        subst h
        exact hinv
      · next enew hdec =>
        injection h with h
        subst h
        intro pid e hpe
        by_cases hq : pid = r.puzzle_id
        · have hsome : some enew = some e := by simpa [Store.set, hq] using hpe
          injection hsome with hsome
          subst hsome
          exact decideStep_upsert_inv cfg (st.store r.puzzle_id) r.last_result d
            r.puzzle_id enew hc hdec
        · exact hinv pid e (by simpa [Store.set, hq] using hpe)
  · injection h with h
    subst h
    exact hinv

/-- The whole loop preserves the store invariant. -/
theorem runList_preserves_inv (cfg : Config) (changed : Option (List String))
    (hc : CadencesPos cfg) :
    ∀ (rows : List Row) (st st2 : RunState),
      StoreInv st.store → runList cfg changed rows st = Except.ok st2 →
      StoreInv st2.store := by
  intro rows
  induction rows with
  | nil =>
    intro st st2 hinv h
    simp only [runList] at h
    injection h with h
    subst h
    exact hinv
  | cons a rs ih =>
    intro st st2 hinv h
    simp only [runList] at h
    cases hstep : runStep cfg changed st a with
    | error e => rw [hstep] at h; cases h
    | ok st1 =>
      rw [hstep] at h
      exact ih st1 st2 (runStep_preserves_inv cfg changed st a st1 hc hinv hstep) h

/-- C8: assuming positive, non-empty cadence tables, every entry the engine
upserts has `interval_days ≥ 1` and a due date exactly `interval_days`
calendar days after `last_reviewed`; consequently any run (full or
incremental) that starts from a store satisfying this invariant leaves every
row of the resulting store satisfying it. -/
theorem c8_interval_due_invariant (cfg : Config) (changed : Option (List String))
    (rows : List Row) (σ : Store) (st : RunState)
    (hc : CadencesPos cfg) (hσ : StoreInv σ)
    (h : run cfg changed rows σ = Except.ok st) :
    (∀ existing raw d pid e,
        decideStep cfg existing raw d pid = Action.upsert e → EntryInv e) ∧
    StoreInv st.store :=
  ⟨fun existing raw d pid e hdec =>
      decideStep_upsert_inv cfg existing raw d pid e hc hdec,
    runList_preserves_inv cfg changed hc rows ⟨σ, 0, 0⟩ st hσ h⟩

/-- Witness for C8: a one-row full run from the empty store. -/
theorem c8_interval_due_invariant_witness :
    StoreInv (Store.set (fun _ => none) "p"
      (some ⟨0, 1, "loss", ⟨2024, 1, 1⟩, ⟨2024, 1, 2⟩⟩)) :=
  (c8_interval_due_invariant defaultConfig none [⟨"p", "2024-01-01", some "loss"⟩]
      (fun _ => none)
      ⟨Store.set (fun _ => none) "p" (some ⟨0, 1, "loss", ⟨2024, 1, 1⟩, ⟨2024, 1, 2⟩⟩), 1, 0⟩
      ⟨by decide, by decide, by decide, by decide⟩ (fun pid e h => nomatch h) rfl).2

/-! ## C7: incremental recomputation agrees with full recomputation -/

/-- One row, both modes: processing a row in full mode and in incremental
mode restricted to `S` preserves the store relation "inside `S` the
incremental store equals the full store, outside `S` it still equals the
original store". -/
theorem runStep_incremental_rel (cfg : Config) (S : List String) (σ0 : Store)
    (stf sti : RunState) (r : Row) (d : Date)
    (hd : localDateOfIso r.last_attempt = some d)
    (hrel : ∀ pid, sti.store pid = if S.contains pid then stf.store pid else σ0 pid) :
    ∃ stf1 sti1,
      runStep cfg none stf r = Except.ok stf1 ∧
      runStep cfg (some S) sti r = Except.ok sti1 ∧
      ∀ pid, sti1.store pid = if S.contains pid then stf1.store pid else σ0 pid := by
  by_cases hS : S.contains r.puzzle_id = true
  · have hmem : r.puzzle_id ∈ S := by simpa using hS
    have hex : sti.store r.puzzle_id = stf.store r.puzzle_id := by
      have hp := hrel r.puzzle_id
      rwa [if_pos hS] at hp
    cases hdec : decideStep cfg (stf.store r.puzzle_id) r.last_result d r.puzzle_id with
    | delete =>
      refine ⟨⟨stf.store.set r.puzzle_id none, stf.updated, stf.deleted + 1⟩,
              ⟨sti.store.set r.puzzle_id none, sti.updated, sti.deleted + 1⟩, ?_, ?_, ?_⟩
      · simp [runStep, rowProcessed, hd, hdec]
      · simp [runStep, rowProcessed, hmem, hd, hex, hdec]
      · intro pid
        by_cases hq : pid = r.puzzle_id <;> simp [Store.set, hq, hmem, hrel pid]
    | noop =>
      refine ⟨stf, sti, ?_, ?_, hrel⟩
      · simp [runStep, rowProcessed, hd, hdec]
      · simp [runStep, rowProcessed, hmem, hd, hex, hdec]
    | upsert e =>
      refine ⟨⟨stf.store.set r.puzzle_id (some e), stf.updated + 1, stf.deleted⟩,
              ⟨sti.store.set r.puzzle_id (some e), sti.updated + 1, sti.deleted⟩, ?_, ?_, ?_⟩
      · simp [runStep, rowProcessed, hd, hdec]
      · simp [runStep, rowProcessed, hmem, hd, hex, hdec]
      · intro pid
        by_cases hq : pid = r.puzzle_id <;> simp [Store.set, hq, hmem, hrel pid]
  · have hmem : r.puzzle_id ∉ S := by simpa using hS
    have hskip : runStep cfg (some S) sti r = Except.ok sti := by
      simp [runStep, rowProcessed, hmem]
    cases hdec : decideStep cfg (stf.store r.puzzle_id) r.last_result d r.puzzle_id with
    | delete =>
      refine ⟨⟨stf.store.set r.puzzle_id none, stf.updated, stf.deleted + 1⟩, sti,
              ?_, hskip, ?_⟩
      · simp [runStep, rowProcessed, hd, hdec]
      · intro pid
        by_cases hq : pid = r.puzzle_id
        · simp [Store.set, hq, hmem, hrel r.puzzle_id]
        · simp [Store.set, hq, hrel pid]
    | noop =>
      refine ⟨stf, sti, ?_, hskip, hrel⟩
      simp [runStep, rowProcessed, hd, hdec]
    | upsert e =>
      refine ⟨⟨stf.store.set r.puzzle_id (some e), stf.updated + 1, stf.deleted⟩, sti,
              ?_, hskip, ?_⟩
      · simp [runStep, rowProcessed, hd, hdec]
      · intro pid
        by_cases hq : pid = r.puzzle_id
        · simp [Store.set, hq, hmem, hrel r.puzzle_id]
        · simp [Store.set, hq, hrel pid]

/-- Folding both modes over the same rows preserves the store relation, and
neither mode errors when every processed timestamp parses. -/
theorem runList_incremental_rel (cfg : Config) (S : List String) (σ0 : Store) :
    ∀ (rows : List Row) (stf sti : RunState),
      (∀ r ∈ rows, (localDateOfIso r.last_attempt).isSome = true) →
      (∀ pid, sti.store pid = if S.contains pid then stf.store pid else σ0 pid) →
      ∃ stf2 sti2,
        runList cfg none rows stf = Except.ok stf2 ∧
        runList cfg (some S) rows sti = Except.ok sti2 ∧
        ∀ pid, sti2.store pid = if S.contains pid then stf2.store pid else σ0 pid := by
  intro rows
  induction rows with
  | nil =>
    intro stf sti hrows hrel
    exact ⟨stf, sti, rfl, rfl, hrel⟩
  | cons a rs ih =>
    intro stf sti hrows hrel
    obtain ⟨d, hd⟩ := Option.isSome_iff_exists.mp (hrows a (List.mem_cons_self a rs))
    obtain ⟨stf1, sti1, hf1, hi1, hrel1⟩ :=
      runStep_incremental_rel cfg S σ0 stf sti a d hd hrel
    obtain ⟨stf2, sti2, hf2, hi2, hrel2⟩ :=
      ih stf1 sti1 (fun r hr => hrows r (List.mem_cons_of_mem a hr)) hrel1
    refine ⟨stf2, sti2, ?_, ?_, hrel2⟩
    · simp [runList, hf1, hf2]
    · simp [runList, hi1, hi2]

/-- C7: when every latest-attempt timestamp parses, an incremental run
restricted to the set `S` succeeds, agrees with the full run on every puzzle
in `S`, and leaves every puzzle outside `S` exactly as the original store
had it. -/
theorem c7_incremental_matches_full (cfg : Config) (S : List String)
    (rows : List Row) (σ : Store)
    (hrows : ∀ r ∈ rows, (localDateOfIso r.last_attempt).isSome = true) :
    ∃ stf sti,
      run cfg none rows σ = Except.ok stf ∧
      run cfg (some S) rows σ = Except.ok sti ∧
      (∀ pid, S.contains pid = true → sti.store pid = stf.store pid) ∧
      (∀ pid, S.contains pid = false → sti.store pid = σ pid) := by
  obtain ⟨stf2, sti2, h1, h2, h3⟩ :=
    runList_incremental_rel cfg S σ rows ⟨σ, 0, 0⟩ ⟨σ, 0, 0⟩ hrows
      (fun pid => by by_cases hp : S.contains pid = true <;> simp [hp])
  refine ⟨stf2, sti2, h1, h2, fun pid hp => ?_, fun pid hp => ?_⟩
  · have hq := h3 pid
    rwa [if_pos hp] at hq
  · have hmem : pid ∉ S := by simpa using hp
    have hq := h3 pid
    simpa [hmem] using hq

/-- Witness for C7: two puzzles, an incremental run restricted to the first. -/
theorem c7_incremental_matches_full_witness :
    ∃ stf sti,
      run defaultConfig none
        [⟨"a", "2024-01-01", some "loss"⟩, ⟨"b", "2024-01-02", some "loss"⟩]
        (fun _ => none) = Except.ok stf ∧
      run defaultConfig (some ["a"])
        [⟨"a", "2024-01-01", some "loss"⟩, ⟨"b", "2024-01-02", some "loss"⟩]
        (fun _ => none) = Except.ok sti ∧
      (∀ pid, (["a"].contains pid) = true → sti.store pid = stf.store pid) ∧
      (∀ pid, (["a"].contains pid) = false → sti.store pid = (fun _ => none : Store) pid) :=
  c7_incremental_matches_full defaultConfig ["a"]
    [⟨"a", "2024-01-01", some "loss"⟩, ⟨"b", "2024-01-02", some "loss"⟩]
    (fun _ => none) (by decide)

end ChessTracker
